import Mathlib

/-!
Verification of the batch document-to-Markdown converter.

The development embeds the dispatcher of `convert-all.py` (task partitioning
across worker threads, per-chunk success counting, aggregation, exit codes),
the source-code-to-Markdown wrapper with its extension tables, the single-file
entry point, and the four single-format tool entry points, and proves the
testable properties stated for them.

Filesystem enumeration and the external MarkItDown library are abstracted:
a directory run is modelled by the list of enumerated tasks, and each
fallible per-file conversion body by an oracle giving its outcome.
-/

namespace ConvertAll

/-- A source input file, abstracted as its path components (the stem and the
suffix, as produced by pathlib) plus its text content. The full final path
component is `stem ++ suffix`. -/
structure InputFile where
  stem : String
  suffix : String
  content : String
  deriving DecidableEq

/-- The final path component of the input file: stem plus suffix. -/
def InputFile.name (f : InputFile) : String := f.stem ++ f.suffix

/-- Python `str.lower()` as used on extensions (all ASCII): lowercase every
character. -/
def strLower (s : String) : String := ⟨s.data.map Char.toLower⟩

/-- The chunk-building loop of `process_directory` (lines 338-348):
`for i in range(num_threads)` computes `current_chunk_size = chunk_size +
(1 if i < remainder else 0)`, and when `start_idx < total_files` appends the
slice `supported_files[start_idx:start_idx+current_chunk_size]` and advances
`start_idx`. Here `fuel` counts the remaining loop iterations, `i` is the
loop index and `start_idx` the running offset; a Python slice is
`(tasks.drop start_idx).take current_chunk_size`. -/
def fileChunksGo {α : Type} (tasks : List α) (chunk_size remainder : Nat) :
    Nat → Nat → Nat → List (List α)
  | 0, _, _ => []
  | fuel+1, i, start_idx =>
    let current_chunk_size := chunk_size + (if i < remainder then 1 else 0)
    if start_idx < tasks.length then
      ((tasks.drop start_idx).take current_chunk_size) ::
        fileChunksGo tasks chunk_size remainder fuel (i+1) (start_idx + current_chunk_size)
    else
      fileChunksGo tasks chunk_size remainder fuel (i+1) start_idx

/-- The chunk partition computed by `process_directory` for the threaded path:
`chunk_size = total_files // num_threads`, `remainder = total_files %
num_threads`, then the loop `fileChunksGo` over `num_threads` iterations. -/
def fileChunks {α : Type} (tasks : List α) (num_threads : Nat) : List (List α) :=
  fileChunksGo tasks (tasks.length / num_threads) (tasks.length % num_threads) num_threads 0 0

/-- Proof-side reformulation of the chunk loop: split a list into successive
chunks of the given sizes, skipping a size when the list is already
exhausted (the `start_idx < total_files` guard). -/
def splitSizes {α : Type} (l : List α) : List Nat → List (List α)
  | [] => []
  | s :: ss => if 0 < l.length then l.take s :: splitSizes (l.drop s) ss else splitSizes l ss

/-- Proof-side list of chunk sizes produced by the loop: iteration `i`
contributes `chunk_size + 1` when `i < remainder` and `chunk_size`
otherwise. -/
def sizeList (chunk_size remainder : Nat) : Nat → Nat → List Nat
  | 0, _ => []
  | fuel+1, i =>
    (chunk_size + if i < remainder then 1 else 0) :: sizeList chunk_size remainder fuel (i+1)

/-- The success-counting loop shared by `process_files_chunk` (lines 272-276)
and the sequential branch of `process_directory` (lines 323-328): iterate the
chunk and increment the counter on every successful conversion. -/
def countLoop {α : Type} (ok : α → Bool) (files_chunk : List α) : Nat :=
  files_chunk.foldl
    (fun local_success file_path => if ok file_path then local_success + 1 else local_success) 0

/-- `process_files_chunk` (lines 258-278): a worker takes its chunk, counts
successes with the loop, and publishes `(local_success, local_total)` where
`local_total = len(files_chunk)`. The per-file conversion outcome is
abstracted by the predicate `ok`. -/
def process_files_chunk {α : Type} (ok : α → Bool) (files_chunk : List α) : Nat × Nat :=
  (countLoop ok files_chunk, files_chunk.length)

/-- The sequential branch of `process_directory` (lines 319-330): one loop
incrementing `total_count` for every file and `success_count` on success,
returning `(success_count, total_count)`. -/
def processSequential {α : Type} (ok : α → Bool) (supported_files : List α) : Nat × Nat :=
  supported_files.foldl
    (fun acc file_path => (if ok file_path then acc.1 + 1 else acc.1, acc.2 + 1)) (0, 0)

/-- The dispatch core of `process_directory` on an already enumerated task
list (lines 319-373): with `num_threads <= 1` the sequential loop runs;
otherwise the list is partitioned by `fileChunks`, a worker runs
`process_files_chunk` on every non-empty chunk (the `if chunk:` guard at
line 357), and after the join the per-worker pairs are summed componentwise
(lines 370-371). Worker interleaving is irrelevant to the aggregate, so the
join-then-sum is modelled directly. -/
def process_directory_tasks {α : Type} (ok : α → Bool) (supported_files : List α)
    (num_threads : Nat) : Nat × Nat :=
  if num_threads ≤ 1 then
    processSequential ok supported_files
  else
    let file_chunks := (fileChunks supported_files num_threads).filter (fun c => !c.isEmpty)
    let results := file_chunks.map (process_files_chunk ok)
    ((results.map Prod.fst).sum, (results.map Prod.snd).sum)

/-- The `try ... except` wrapper of `convert_file_to_markdown` (lines
229-255): the whole fallible body (source-code wrapping with its file I/O,
or the MarkItDown call plus write) is abstracted by the oracle `attempt`;
an exception is caught and turned into `False`, success returns `True`. -/
def convert_file_to_markdown {α : Type} (attempt : α → Except String Unit)
    (input_file_path : α) : Bool :=
  match attempt input_file_path with
  | .ok _ => true
  | .error _ => false

/-- The document extension table of `get_supported_extensions`
(lines 18-27). -/
def document_extensions : List (String × String) :=
  [(".xlsx", "Excel"), (".xls", "Excel"), (".docx", "Word"), (".doc", "Word"),
   (".pptx", "PowerPoint"), (".ppt", "PowerPoint"), (".pdf", "PDF"), (".txt", "Text")]

/-- The programming language extension table of `get_supported_extensions`
(lines 30-93). -/
def programming_extensions : List (String × String) :=
  [(".abp", "ABAP"), (".as", "ActionScript"), (".asm", "Assembly"), (".bat", "Batch"),
   (".c", "C"), (".cc", "C++"), (".clj", "Clojure"), (".coffee", "CoffeeScript"),
   (".cpp", "C++"), (".cs", "C#"), (".css", "CSS"), (".cxx", "C++"), (".d", "D"),
   (".dart", "Dart"), (".erl", "Erlang"), (".forth", "Forth"), (".go", "Go"),
   (".groovy", "Groovy"), (".h", "C/C++ Header"), (".hpp", "C++ Header"),
   (".hs", "Haskell"), (".htm", "HTML"), (".html", "HTML"), (".hx", "Haxe"),
   (".ipynb", "Jupyter Notebook"), (".java", "Java"), (".js", "JavaScript"),
   (".jsx", "JSX"), (".kt", "Kotlin"), (".kts", "Kotlin Script"),
   (".lhs", "Literate Haskell"), (".lisp", "Lisp"), (".lsl", "LSL"), (".lua", "Lua"),
   (".m", "MATLAB/Objective-C"), (".mat", "MATLAB"), (".mjs", "JavaScript Module"),
   (".ml", "OCaml"), (".pas", "Pascal"), (".php", "PHP"), (".pl", "Perl"),
   (".pm", "Perl Module"), (".pro", "Prolog"), (".ps1", "PowerShell"),
   (".py", "Python"), (".pyc", "Python Compiled"), (".pyo", "Python Optimized"),
   (".r", "R"), (".rb", "Ruby"), (".rs", "Rust"), (".scala", "Scala"),
   (".scm", "Scheme"), (".sh", "Shell Script"), (".sql", "SQL"), (".swift", "Swift"),
   (".swi", "SWI-Prolog"), (".ts", "TypeScript"), (".v", "Verilog"),
   (".vbs", "VBScript"), (".xhtml", "XHTML"), (".xml", "XML"), (".xquery", "XQuery")]

/-- `get_supported_extensions` (lines 16-97): the merge
`{**document_extensions, **programming_extensions}`; the two key sets are
disjoint, so the merge is the concatenation for lookup purposes. -/
def get_supported_extensions : List (String × String) :=
  document_extensions ++ programming_extensions

/-- `get_source_code_extensions` (lines 100-110): the set of source code
extensions. -/
def get_source_code_extensions : List String :=
  [".abp", ".as", ".asm", ".bat", ".c", ".cc", ".clj", ".coffee", ".cpp",
   ".cs", ".css", ".cxx", ".d", ".dart", ".erl", ".forth", ".go", ".groovy",
   ".h", ".hpp", ".hs", ".htm", ".html", ".hx", ".ipynb", ".java", ".js",
   ".jsx", ".kt", ".kts", ".lhs", ".lisp", ".lsl", ".lua", ".m", ".mat",
   ".mjs", ".ml", ".pas", ".php", ".pl", ".pm", ".pro", ".ps1", ".py",
   ".pyc", ".pyo", ".r", ".rb", ".rs", ".scala", ".scm", ".sh", ".sql",
   ".swift", ".swi", ".ts", ".v", ".vbs", ".xhtml", ".xml", ".xquery"]

/-- The `language_map` of `convert_source_code_to_markdown` (lines 133-196):
extension to fenced-code-block syntax tag. -/
def language_map : List (String × String) :=
  [(".abp", "abap"), (".as", "actionscript"), (".asm", "assembly"), (".bat", "batch"),
   (".c", "c"), (".cc", "cpp"), (".clj", "clojure"), (".coffee", "coffeescript"),
   (".cpp", "cpp"), (".cs", "csharp"), (".css", "css"), (".cxx", "cpp"), (".d", "d"),
   (".dart", "dart"), (".erl", "erlang"), (".forth", "forth"), (".go", "go"),
   (".groovy", "groovy"), (".h", "c"), (".hpp", "cpp"), (".hs", "haskell"),
   (".htm", "html"), (".html", "html"), (".hx", "haxe"), (".ipynb", "json"),
   (".java", "java"), (".js", "javascript"), (".jsx", "jsx"), (".kt", "kotlin"),
   (".kts", "kotlin"), (".lhs", "haskell"), (".lisp", "lisp"), (".lsl", "lsl"),
   (".lua", "lua"), (".m", "matlab"), (".mat", "matlab"), (".mjs", "javascript"),
   (".ml", "ocaml"), (".pas", "pascal"), (".php", "php"), (".pl", "perl"),
   (".pm", "perl"), (".pro", "prolog"), (".ps1", "powershell"), (".py", "python"),
   (".pyc", "python"), (".pyo", "python"), (".r", "r"), (".rb", "ruby"),
   (".rs", "rust"), (".scala", "scala"), (".scm", "scheme"), (".sh", "bash"),
   (".sql", "sql"), (".swift", "swift"), (".swi", "prolog"), (".ts", "typescript"),
   (".v", "verilog"), (".vbs", "vbscript"), (".xhtml", "xml"), (".xml", "xml"),
   (".xquery", "xquery")]

/-- `convert_source_code_to_markdown` (lines 113-215), success path: read the
content, look the lowercased extension up in `language_map` with default
empty string, build `"# {name}\n\n\x60\x60\x60{language}\n{content}\n\x60\x60\x60\n"`,
and write it to `{stem}.md` under the output directory. The result is the
pair (output filename, written markdown content). -/
def convert_source_code_to_markdown (f : InputFile) : String × String :=
  let extension := strLower f.suffix
  let language := (language_map.lookup extension).getD ""
  let markdown_content :=
    "# " ++ f.name ++ "\n\n```" ++ language ++ "\n" ++ f.content ++ "\n```\n"
  let output_filename := f.stem ++ ".md"
  (output_filename, markdown_content)

/-- Outcome of `process_single_file` (lines 376-407): the three validation
branches print distinct messages and return `False`; otherwise the file is
handed to `convert_file_to_markdown`, whose boolean result is returned. -/
inductive FileReport where
  | fileNotFound
  | pathNotAFile
  | unsupportedType
  | processed (success : Bool)
  deriving DecidableEq

/-- The boolean value `process_single_file` actually returns to `main`. -/
def FileReport.toBool : FileReport → Bool
  | .processed true => true
  | _ => false

/-- `process_single_file` (lines 376-407): existence check, regular-file
check, supported-extension check (dict membership in
`get_supported_extensions`), then the conversion call whose outcome is
abstracted by `convOk`. -/
def process_single_file (fileExists isFile : Bool) (file : InputFile) (convOk : Bool) :
    FileReport :=
  if !fileExists then .fileNotFound
  else if !isFile then .pathNotAFile
  else if !(get_supported_extensions.lookup (strLower file.suffix)).isSome then .unsupportedType
  else .processed convOk

/-- A filesystem effect of the batch tool: creating the output directory
(`output_dir.mkdir(exist_ok=True)`, line 461) or writing one converted
markdown file. -/
inductive FsEffect where
  | mkdirOut (dir : String)
  | writeFile (name : String)
  deriving DecidableEq

/-- The markdown files written by a directory run: every successfully
converted task writes `{stem}.md` into the output directory. Worker
interleaving only permutes the writes; the list is given in task order. -/
def conversionWrites (ok : InputFile → Bool) (tasks : List InputFile) : List FsEffect :=
  (tasks.filter ok).map (fun f => FsEffect.writeFile (f.stem ++ ".md"))

/-- `process_directory` (lines 281-373) over an abstract filesystem: a
missing path (line 297), a non-directory path (line 301) and an empty
enumeration (line 311) each return `(0, 0)` early; otherwise the dispatch
core runs on the enumerated task list. -/
def process_directory_result (dirExists isDir : Bool) (ok : InputFile → Bool)
    (supported_files : List InputFile) (num_threads : Nat) : Nat × Nat :=
  if !dirExists then (0, 0)
  else if !isDir then (0, 0)
  else if supported_files.isEmpty then (0, 0)
  else process_directory_tasks ok supported_files num_threads

/-- `main` in directory mode (lines 457-484): create the output directory
first, then run `process_directory` and exit with
`0 if success_count == total_count else 1`. The first component is the
effect trace, the second the exit code. -/
def batch_main_dir_trace (output : String) (dirExists isDir : Bool) (ok : InputFile → Bool)
    (supported_files : List InputFile) (num_threads : Nat) : List FsEffect × Nat :=
  let writes :=
    if dirExists && isDir && !supported_files.isEmpty then conversionWrites ok supported_files
    else []
  let r := process_directory_result dirExists isDir ok supported_files num_threads
  (FsEffect.mkdirOut output :: writes, if r.1 = r.2 then 0 else 1)

/-- `main` in single-file mode (lines 457-497): create the output directory
first, then run `process_single_file`; a successful conversion writes
`{stem}.md`, and the exit code is `0` on success and `1` otherwise. -/
def batch_main_file_trace (output : String) (fileExists isFile : Bool) (file : InputFile)
    (convOk : Bool) : List FsEffect × Nat :=
  let report := process_single_file fileExists isFile file convOk
  let writes :=
    match report with
    | .processed true => [FsEffect.writeFile (file.stem ++ ".md")]
    | _ => []
  (FsEffect.mkdirOut output :: writes, if report.toBool then 0 else 1)

/-- Observable outcome of one single-format tool run: whether the conversion
library was invoked on the input, and the process exit code. -/
structure ToolRun where
  libCalled : Bool
  exitCode : Nat
  deriving DecidableEq

/-- Boolean success test for an `Except` outcome. -/
def isOkB {ε α : Type} : Except ε α → Bool
  | .ok _ => true
  | .error _ => false

/-- `convert_excel_to_markdown` of `excel-to-markdown.py` (lines 11-37):
call the library on the input; on success write or print the text and fall
through (process exit 0), on any exception exit 1. The library is the
oracle `lib`; no property of the input other than what `lib` itself reads
is consulted. -/
def convert_excel_to_markdown (lib : InputFile → Except String String)
    (excel_file : InputFile) : ToolRun :=
  match lib excel_file with
  | .ok _ => ⟨true, 0⟩
  | .error _ => ⟨true, 1⟩

/-- `main` of `excel-to-markdown.py` (lines 40-54): after the argument-count
check, the only validation is `Path(excel_file).exists()`; an existing path
is passed straight to `convert_excel_to_markdown` with no extension check. -/
def excel_tool_main (fileExists : Bool) (lib : InputFile → Except String String)
    (excel_file : InputFile) : ToolRun :=
  if !fileExists then ⟨false, 1⟩
  else convert_excel_to_markdown lib excel_file

/-- `convert_word_to_markdown` of `word-to-markdown.py` (lines 11-37),
textually identical to the Excel tool up to renaming; likewise for the PDF
and PowerPoint tools. -/
def convert_word_to_markdown (lib : InputFile → Except String String)
    (docx_file : InputFile) : ToolRun :=
  match lib docx_file with
  | .ok _ => ⟨true, 0⟩
  | .error _ => ⟨true, 1⟩

/-- `main` of `word-to-markdown.py` (lines 40-54): existence check only,
then the direct library call; no extension validation. -/
def word_tool_main (fileExists : Bool) (lib : InputFile → Except String String)
    (docx_file : InputFile) : ToolRun :=
  if !fileExists then ⟨false, 1⟩
  else convert_word_to_markdown lib docx_file

theorem fileChunksGo_eq_splitSizes {α : Type} (tasks : List α) (cs rem : Nat) :
    ∀ fuel i start_idx,
      fileChunksGo tasks cs rem fuel i start_idx
        = splitSizes (tasks.drop start_idx) (sizeList cs rem fuel i) := by
  intro fuel
  induction fuel with
  | zero => intro i start_idx; simp [fileChunksGo, sizeList, splitSizes]
  | succ fuel ih =>
    intro i start_idx
    simp only [fileChunksGo, sizeList, splitSizes]
    by_cases h : start_idx < tasks.length
    · have hl : 0 < (tasks.drop start_idx).length := by
        rw [List.length_drop]; omega
      rw [if_pos h, if_pos hl, ih, List.drop_drop]
    · have hl : ¬ 0 < (tasks.drop start_idx).length := by
        rw [List.length_drop]; omega
      rw [if_neg h, if_neg hl, ih]

theorem sizeList_of_le (cs rem : Nat) :
    ∀ fuel i, rem ≤ i → sizeList cs rem fuel i = List.replicate fuel cs := by
  intro fuel
  induction fuel with
  | zero => intro i _; rfl
  | succ fuel ih =>
    intro i h
    simp only [sizeList, List.replicate_succ]
    rw [if_neg (by omega), ih (i+1) (by omega)]
    simp

theorem sizeList_closed (cs rem : Nat) :
    ∀ fuel i, i ≤ rem → rem ≤ i + fuel →
      sizeList cs rem fuel i
        = List.replicate (rem - i) (cs + 1) ++ List.replicate (fuel - (rem - i)) cs := by
  intro fuel
  induction fuel with
  | zero =>
    intro i h1 h2
    have h3 : rem = i := by omega
    subst h3
    simp [sizeList]
  | succ fuel ih =>
    intro i h1 h2
    by_cases h : i < rem
    · have hri : rem - i = (rem - (i+1)) + 1 := by omega
      have hfi : fuel + 1 - (rem - (i + 1) + 1) = fuel - (rem - (i + 1)) := by omega
      simp only [sizeList, if_pos h]
      rw [ih (i+1) (by omega) (by omega), hri, hfi, List.replicate_succ, List.cons_append]
    · have h3 : i = rem := by omega
      subst h3
      simp only [sizeList, if_neg h]
      rw [sizeList_of_le cs i fuel (i+1) (by omega)]
      simp [List.replicate_succ]

theorem splitSizes_nil {α : Type} : ∀ ss : List Nat, splitSizes ([] : List α) ss = [] := by
  intro ss
  induction ss with
  | nil => rfl
  | cons s ss ih => simp [splitSizes, ih]

theorem splitSizes_exact {α : Type} :
    ∀ (ss : List Nat) (l : List α), (∀ s ∈ ss, 0 < s) → l.length = ss.sum →
      (splitSizes l ss).map List.length = ss ∧ (splitSizes l ss).flatten = l := by
  intro ss
  induction ss with
  | nil =>
    intro l _ hlen
    have h : l = [] := List.eq_nil_of_length_eq_zero (by simpa using hlen)
    subst h
    simp [splitSizes]
  | cons s ss ih =>
    intro l hpos hlen
    have hs : 0 < s := hpos s (by simp)
    have hlen' : l.length = s + ss.sum := by simpa using hlen
    have hl : 0 < l.length := by omega
    have htake : (l.take s).length = s := by
      rw [List.length_take]; omega
    have hdrop : (l.drop s).length = ss.sum := by
      rw [List.length_drop]; omega
    obtain ⟨ih1, ih2⟩ := ih (l.drop s) (fun t ht => hpos t (by simp [ht])) hdrop
    refine ⟨?_, ?_⟩
    · simp [splitSizes, if_pos hl, ih1, htake]
    · simp [splitSizes, if_pos hl, ih2]

theorem splitSizes_append {α : Type} :
    ∀ (ss₁ ss₂ : List Nat) (l : List α), (∀ s ∈ ss₁, 0 < s) → l.length = ss₁.sum →
      splitSizes l (ss₁ ++ ss₂) = splitSizes l ss₁ := by
  intro ss₁
  induction ss₁ with
  | nil =>
    intro ss₂ l _ hlen
    have h : l = [] := List.eq_nil_of_length_eq_zero (by simpa using hlen)
    subst h
    simp [splitSizes_nil, splitSizes]
  | cons s ss ih =>
    intro ss₂ l hpos hlen
    have hs : 0 < s := hpos s (by simp)
    have hlen' : l.length = s + ss.sum := by simpa using hlen
    have hl : 0 < l.length := by omega
    have hdrop : (l.drop s).length = ss.sum := by
      rw [List.length_drop]; omega
    simp only [List.cons_append, splitSizes, if_pos hl]
    congr 1
    exact ih ss₂ (l.drop s) (fun t ht => hpos t (by simp [ht])) hdrop

theorem fileChunks_eq_splitSizes {α : Type} (tasks : List α) (N : Nat) (hN : 1 ≤ N) :
    fileChunks tasks N
      = splitSizes tasks
          (List.replicate (tasks.length % N) (tasks.length / N + 1)
            ++ List.replicate (N - tasks.length % N) (tasks.length / N)) := by
  have hrem : tasks.length % N < N := Nat.mod_lt _ (by omega)
  rw [fileChunks, fileChunksGo_eq_splitSizes, List.drop_zero,
    sizeList_closed _ _ N 0 (by omega) (by omega)]
  simp

theorem fileChunks_spec {α : Type} (tasks : List α) (N : Nat) (hN : 1 ≤ N) :
    (fileChunks tasks N).map List.length
        = List.replicate (tasks.length % N) (tasks.length / N + 1)
          ++ List.replicate (min N tasks.length - tasks.length % N) (tasks.length / N)
      ∧ (fileChunks tasks N).flatten = tasks := by
  have hrem : tasks.length % N < N := Nat.mod_lt _ (by omega)
  have hdm : N * (tasks.length / N) + tasks.length % N = tasks.length :=
    Nat.div_add_mod _ _
  rw [fileChunks_eq_splitSizes tasks N hN]
  by_cases hTN : N ≤ tasks.length
  · have hq : 0 < tasks.length / N := Nat.div_pos hTN (by omega)
    have hpos : ∀ s ∈ List.replicate (tasks.length % N) (tasks.length / N + 1)
        ++ List.replicate (N - tasks.length % N) (tasks.length / N), 0 < s := by
      intro s hs
      rcases List.mem_append.mp hs with h | h
      · rw [List.eq_of_mem_replicate h]; omega
      · rw [List.eq_of_mem_replicate h]; omega
    have hsum : tasks.length
        = (List.replicate (tasks.length % N) (tasks.length / N + 1)
            ++ List.replicate (N - tasks.length % N) (tasks.length / N)).sum := by
      have hk : tasks.length % N + (N - tasks.length % N) = N := by omega
      have harith : tasks.length % N * (tasks.length / N + 1)
          + (N - tasks.length % N) * (tasks.length / N) = tasks.length := by
        calc tasks.length % N * (tasks.length / N + 1)
              + (N - tasks.length % N) * (tasks.length / N)
            = (tasks.length % N + (N - tasks.length % N)) * (tasks.length / N)
              + tasks.length % N := by ring
          _ = N * (tasks.length / N) + tasks.length % N := by rw [hk]
          _ = tasks.length := hdm
      simp [List.sum_replicate, smul_eq_mul]
      omega
    obtain ⟨h1, h2⟩ := splitSizes_exact _ tasks hpos hsum
    have hmin : min N tasks.length = N := by omega
    rw [hmin]
    exact ⟨h1, h2⟩
  · have hq : tasks.length / N = 0 := Nat.div_eq_of_lt (by omega)
    have hr : tasks.length % N = tasks.length := Nat.mod_eq_of_lt (by omega)
    have hmin : min N tasks.length = tasks.length := by omega
    rw [hq, hr, hmin]
    have hpos : ∀ s ∈ List.replicate tasks.length (0 + 1), 0 < s := by
      intro s hs
      rw [List.eq_of_mem_replicate hs]
      omega
    have hsum : tasks.length = (List.replicate tasks.length (0 + 1)).sum := by
      simp [List.sum_replicate]
    rw [splitSizes_append (List.replicate tasks.length (0 + 1))
      (List.replicate (N - tasks.length) 0) tasks hpos hsum]
    obtain ⟨h1, h2⟩ := splitSizes_exact (List.replicate tasks.length (0 + 1)) tasks hpos hsum
    refine ⟨?_, h2⟩
    rw [h1]
    simp

theorem fileChunks_flatten {α : Type} (tasks : List α) (N : Nat) (hN : 1 ≤ N) :
    (fileChunks tasks N).flatten = tasks :=
  (fileChunks_spec tasks N hN).2

theorem fileChunks_length {α : Type} (tasks : List α) (N : Nat) (hN : 1 ≤ N) :
    (fileChunks tasks N).length = min N tasks.length := by
  have hrem : tasks.length % N < N := Nat.mod_lt _ (by omega)
  have hle : tasks.length % N ≤ tasks.length := Nat.mod_le _ _
  have h := congrArg List.length (fileChunks_spec tasks N hN).1
  simp only [List.length_map, List.length_append, List.length_replicate] at h
  omega

theorem fileChunks_get_length {α : Type} (tasks : List α) (N : Nat) (hN : 1 ≤ N) (i : Nat)
    (hi : i < (fileChunks tasks N).length) :
    ((fileChunks tasks N).get ⟨i, hi⟩).length
      = tasks.length / N + (if i < tasks.length % N then 1 else 0) := by
  have hmap := (fileChunks_spec tasks N hN).1
  have hi2 : i < ((fileChunks tasks N).map List.length).length := by
    rw [List.length_map]; exact hi
  have h1 : ((fileChunks tasks N).map List.length)[i] = ((fileChunks tasks N)[i]).length :=
    List.getElem_map ..
  have h2 := List.getElem_of_eq hmap hi2
  rw [h1] at h2
  rw [List.get_eq_getElem, h2]
  by_cases hir : i < tasks.length % N
  · have hlt : i < (List.replicate (tasks.length % N) (tasks.length / N + 1)).length := by
      rw [List.length_replicate]; exact hir
    rw [List.getElem_append_left hlt, List.getElem_replicate, if_pos hir]
  · have hge : (List.replicate (tasks.length % N) (tasks.length / N + 1)).length ≤ i := by
      rw [List.length_replicate]; omega
    rw [List.getElem_append_right hge, List.getElem_replicate, if_neg hir]
    exact (Nat.add_zero _).symm

theorem fileChunks_get_nonempty {α : Type} (tasks : List α) (N : Nat) (hN : 1 ≤ N) (i : Nat)
    (hi : i < (fileChunks tasks N).length) :
    0 < ((fileChunks tasks N).get ⟨i, hi⟩).length := by
  have hg := fileChunks_get_length tasks N hN i hi
  have hlen := fileChunks_length tasks N hN
  have hdm : N * (tasks.length / N) + tasks.length % N = tasks.length :=
    Nat.div_add_mod _ _
  rcases Nat.lt_or_ge i (tasks.length % N) with hir | hir
  · rw [hg, if_pos hir]
    exact Nat.succ_pos _
  · rw [hg, if_neg (Nat.not_lt.mpr hir), Nat.add_zero]
    rcases Nat.eq_zero_or_pos (tasks.length / N) with hq | hq
    · exfalso
      rw [hq, Nat.mul_zero, Nat.zero_add] at hdm
      rw [hdm] at hir
      have h3 : i < min N tasks.length := hlen ▸ hi
      have h4 : min N tasks.length ≤ tasks.length := Nat.min_le_right _ _
      omega
    · exact hq

theorem countLoop_aux {α : Type} (ok : α → Bool) :
    ∀ (l : List α) (n : Nat),
      l.foldl (fun local_success file_path =>
        if ok file_path then local_success + 1 else local_success) n = n + l.countP ok := by
  intro l
  induction l with
  | nil => intro n; simp
  | cons a l ih =>
    intro n
    simp only [List.foldl_cons, List.countP_cons, ih]
    by_cases h : ok a <;> simp [h] <;> omega

theorem countLoop_eq_countP {α : Type} (ok : α → Bool) (l : List α) :
    countLoop ok l = l.countP ok := by
  rw [countLoop, countLoop_aux]
  omega

theorem processSequential_aux {α : Type} (ok : α → Bool) :
    ∀ (l : List α) (p : Nat × Nat),
      l.foldl (fun acc file_path =>
          (if ok file_path then acc.1 + 1 else acc.1, acc.2 + 1)) p
        = (p.1 + l.countP ok, p.2 + l.length) := by
  intro l
  induction l with
  | nil => intro p; simp
  | cons a l ih =>
    intro p
    simp only [List.foldl_cons, ih, List.countP_cons, List.length_cons]
    by_cases h : ok a <;> simp [h, Prod.ext_iff] <;> omega

theorem processSequential_eq {α : Type} (ok : α → Bool) (l : List α) :
    processSequential ok l = (l.countP ok, l.length) := by
  rw [processSequential, processSequential_aux]
  simp

theorem filter_nonempty_map_sum {α : Type} (f : List α → Nat) (hf : f [] = 0) :
    ∀ L : List (List α),
      (((L.filter (fun c => !c.isEmpty)).map f).sum) = ((L.map f).sum) := by
  intro L
  induction L with
  | nil => rfl
  | cons c L ih =>
    cases c with
    | nil => simp [List.filter_cons, hf, ih]
    | cons a c => simp [List.filter_cons, ih]

theorem process_directory_tasks_eq {α : Type} (ok : α → Bool) (tasks : List α) (N : Nat) :
    process_directory_tasks ok tasks N = (tasks.countP ok, tasks.length) := by
  rw [process_directory_tasks]
  by_cases hN : N ≤ 1
  · rw [if_pos hN, processSequential_eq]
  · rw [if_neg hN]
    have hN1 : 1 ≤ N := by omega
    have hflat := fileChunks_flatten tasks N hN1
    simp only [List.map_map]
    refine Prod.ext ?_ ?_
    · have h1 : (Prod.fst ∘ process_files_chunk ok) = fun c : List α => countLoop ok c := rfl
      rw [h1]
      have h2 : ((fileChunks tasks N).filter (fun c => !c.isEmpty)).map
            (fun c : List α => countLoop ok c)
          = ((fileChunks tasks N).filter (fun c => !c.isEmpty)).map (List.countP ok) := by
        apply List.map_congr_left
        intro c _
        exact countLoop_eq_countP ok c
      rw [h2, filter_nonempty_map_sum (List.countP ok) (by simp)]
      rw [← List.countP_flatten, hflat]
    · have h1 : (Prod.snd ∘ process_files_chunk ok) = fun c : List α => c.length := rfl
      rw [h1, filter_nonempty_map_sum List.length rfl]
      rw [← List.length_flatten, hflat]

/-- C1: for every task list and thread count N ≥ 2 (the chunked path), the
partition computed by `process_directory` uses `base = T div N` and
`remainder = T mod N`, gives built chunk `i` exactly `base + 1` tasks when
`i < remainder` and `base` tasks otherwise, and the resulting list contains
exactly `min N T` non-empty chunks whose sizes sum to `T`, whose pairwise
size difference is at most 1, and whose concatenation in chunk order is the
original task list. -/
theorem claim_C1_partition {α : Type} (tasks : List α) (N : Nat) (hN : 2 ≤ N) :
    (fileChunks tasks N).length = min N tasks.length
    ∧ (∀ i (hi : i < (fileChunks tasks N).length),
        ((fileChunks tasks N).get ⟨i, hi⟩).length
          = tasks.length / N + (if i < tasks.length % N then 1 else 0))
    ∧ (∀ c ∈ fileChunks tasks N, c ≠ [])
    ∧ ((fileChunks tasks N).map List.length).sum = tasks.length
    ∧ (∀ c₁ ∈ fileChunks tasks N, ∀ c₂ ∈ fileChunks tasks N, c₁.length ≤ c₂.length + 1)
    ∧ (fileChunks tasks N).flatten = tasks := by
  have hN1 : 1 ≤ N := by omega
  refine ⟨fileChunks_length tasks N hN1, fileChunks_get_length tasks N hN1, ?_, ?_, ?_,
    fileChunks_flatten tasks N hN1⟩
  · intro c hc
    obtain ⟨⟨i, hi⟩, rfl⟩ := List.mem_iff_get.mp hc
    exact List.ne_nil_of_length_pos (fileChunks_get_nonempty tasks N hN1 i hi)
  · rw [← List.length_flatten, fileChunks_flatten tasks N hN1]
  · intro c₁ h₁ c₂ h₂
    obtain ⟨⟨i, hi⟩, rfl⟩ := List.mem_iff_get.mp h₁
    obtain ⟨⟨j, hj⟩, rfl⟩ := List.mem_iff_get.mp h₂
    rw [fileChunks_get_length tasks N hN1 i hi, fileChunks_get_length tasks N hN1 j hj]
    by_cases hi2 : i < tasks.length % N <;> by_cases hj2 : j < tasks.length % N <;>
      simp [hi2, hj2] <;> omega

/-- C1 witness: the partition properties instantiated at the concrete task
list `[0, 1, 2]` with 2 threads. -/
theorem claim_C1_partition_witness :
    2 ≤ 2
    ∧ ((fileChunks [0, 1, 2] 2).length = min 2 (List.length [0, 1, 2])
    ∧ (∀ i (hi : i < (fileChunks [0, 1, 2] 2).length),
        ((fileChunks [0, 1, 2] 2).get ⟨i, hi⟩).length
          = List.length [0, 1, 2] / 2 + (if i < List.length [0, 1, 2] % 2 then 1 else 0))
    ∧ (∀ c ∈ fileChunks [0, 1, 2] 2, c ≠ [])
    ∧ ((fileChunks [0, 1, 2] 2).map List.length).sum = List.length [0, 1, 2]
    ∧ (∀ c₁ ∈ fileChunks [0, 1, 2] 2, ∀ c₂ ∈ fileChunks [0, 1, 2] 2,
        c₁.length ≤ c₂.length + 1)
    ∧ (fileChunks [0, 1, 2] 2).flatten = [0, 1, 2]) :=
  ⟨by decide, claim_C1_partition [0, 1, 2] 2 (by decide)⟩

/-- C2: for every enumerated task list, outcome predicate and thread count,
the aggregate of the dispatch core has `attempted` equal to the number of
tasks and `successes` at most `attempted`: chunking drops and duplicates
nothing in the aggregate counts. -/
theorem claim_C2_invariant {α : Type} (ok : α → Bool) (tasks : List α) (N : Nat) :
    (process_directory_tasks ok tasks N).2 = tasks.length
    ∧ (process_directory_tasks ok tasks N).1 ≤ (process_directory_tasks ok tasks N).2 := by
  rw [process_directory_tasks_eq]
  exact ⟨rfl, List.countP_le_length ok⟩

/-- C3: for every task list and per-file outcome predicate, the dispatch
core with any thread count N > 1 returns the same aggregate pair as the
sequential path (N = 1, and also N = 0): partitioning changes only the
concurrency shape, not which files are processed or their outcome. -/
theorem claim_C3_refinement {α : Type} (ok : α → Bool) (tasks : List α) (N : Nat)
    (_hN : 1 < N) :
    process_directory_tasks ok tasks N = process_directory_tasks ok tasks 1
    ∧ process_directory_tasks ok tasks 0 = process_directory_tasks ok tasks 1 := by
  rw [process_directory_tasks_eq, process_directory_tasks_eq, process_directory_tasks_eq]
  exact ⟨rfl, rfl⟩

/-- C3 witness: three threads versus the sequential path on five tasks of
which the even ones succeed. -/
theorem claim_C3_refinement_witness :
    1 < 3
    ∧ (process_directory_tasks (fun n => n % 2 == 0) [0, 1, 2, 3, 4] 3
        = process_directory_tasks (fun n => n % 2 == 0) [0, 1, 2, 3, 4] 1
    ∧ process_directory_tasks (fun n => n % 2 == 0) [0, 1, 2, 3, 4] 0
        = process_directory_tasks (fun n => n % 2 == 0) [0, 1, 2, 3, 4] 1) :=
  ⟨by decide, claim_C3_refinement (fun n => n % 2 == 0) [0, 1, 2, 3, 4] 3 (by decide)⟩

/-- C4 counterexample: a directory run on a non-existent path returns the
`(0, 0)` aggregate, which `main` treats as full success — the process exits
with code 0, not 1 as the claim states. -/
theorem claim_C4_exit_counterexample :
    (batch_main_dir_trace "converted-markdown" false false
        (fun _ => true) [⟨"a", ".py", "print(1)"⟩] 1).2 = 0
    ∧ (batch_main_dir_trace "converted-markdown" false false
        (fun _ => true) [⟨"a", ".py", "print(1)"⟩] 1).2 ≠ 1 :=
  ⟨rfl, by decide⟩

/-- C4 amended: the batch exit code is 0 exactly when the aggregate shows
full success (so 1 when any file of a batch fails); in single-file mode a
missing path, a non-regular file, an unsupported extension and a failed
conversion all exit 1; but a `--directorypath` that does not exist or is
not a directory yields the `(0, 0)` aggregate, which counts as full
success: the process exits 0, not 1. -/
theorem claim_C4_exit_codes (out : String) (tasks : List InputFile)
    (ok : InputFile → Bool) (N : Nat) (f : InputFile) (convOk isFile isDir : Bool) :
    (batch_main_dir_trace out true true ok tasks N).2
        = (if tasks.countP ok = tasks.length then 0 else 1)
    ∧ (batch_main_file_trace out false isFile f convOk).2 = 1
    ∧ (batch_main_file_trace out true false f convOk).2 = 1
    ∧ (batch_main_file_trace out true true f false).2 = 1
    ∧ (batch_main_dir_trace out false isDir ok tasks N).2 = 0
    ∧ (batch_main_dir_trace out true false ok tasks N).2 = 0 := by
  refine ⟨?_, ?_, ?_, ?_, ?_, ?_⟩
  · by_cases h : tasks.isEmpty
    · have h2 : tasks = [] := List.isEmpty_iff.mp h
      subst h2
      rfl
    · simp [batch_main_dir_trace, process_directory_result, h, process_directory_tasks_eq]
  · rfl
  · rfl
  · by_cases h : (get_supported_extensions.lookup (strLower f.suffix)).isSome <;>
      simp [batch_main_file_trace, process_single_file, h, FileReport.toBool]
  · cases isDir <;> rfl
  · rfl

/-- C5 counterexample: the `.abp` extension, offered by the claim as
unrecognized-but-listed, is in fact in `language_map` with tag `abap`, so
the produced fenced block carries the `abap` tag rather than an empty
one. -/
theorem claim_C5_abp_counterexample :
    (language_map.lookup ".abp").getD "" = "abap"
    ∧ (convert_source_code_to_markdown ⟨"sample", ".abp", "WRITE 1."⟩).2
        = "# sample.abp\n\n```abap\nWRITE 1.\n```\n"
    ∧ (convert_source_code_to_markdown ⟨"sample", ".abp", "WRITE 1."⟩).2
        ≠ "# sample.abp\n\n```\nWRITE 1.\n```\n" :=
  ⟨rfl, rfl, by decide⟩

/-- C5 amended: there is no unrecognized-but-listed source extension —
every extension of `get_source_code_extensions` (including `.abp`) has a
non-empty tag in `language_map`, so the empty-tag fallback fires for no
listed extension and a `.abp` file converts successfully to an
`abap`-tagged fenced block. -/
theorem claim_C5_language_tags :
    (get_source_code_extensions.all
        (fun e => !((language_map.lookup e).getD "" == ""))) = true
    ∧ convert_source_code_to_markdown ⟨"sample", ".abp", "WRITE 1."⟩
        = ("sample.md", "# sample.abp\n\n```abap\nWRITE 1.\n```\n") :=
  ⟨by decide, rfl⟩

/-- C6: a `.py` source file with content `print(1)` converts to exactly
the header line with the input filename, a blank line, and a
`python`-tagged fenced block holding the unmodified content; the output is
written to the stem with extension `.md`. -/
theorem claim_C6_python_output (stem : String) :
    convert_source_code_to_markdown ⟨stem, ".py", "print(1)"⟩
      = (stem ++ ".md", "# " ++ (stem ++ ".py") ++ "\n\n```python\nprint(1)\n```\n") := by
  have hlang : (language_map.lookup (strLower ".py")).getD "" = "python" := rfl
  have hinner : "\n\n```" ++ ("python" ++ ("\n" ++ ("print(1)" ++ "\n```\n")))
      = "\n\n```python\nprint(1)\n```\n" := rfl
  simp only [convert_source_code_to_markdown, InputFile.name, hlang, String.append_assoc,
    hinner]

/-- C7: any exception raised by a per-file conversion body is caught at the
per-file call site and becomes a `False` result; every file of every chunk
is still attempted, and the run completes with an aggregate in which each
file contributes exactly 1 to attempted and its own isolated outcome to
successes. -/
theorem claim_C7_containment {α : Type} (attempt : α → Except String Unit)
    (tasks : List α) (N : Nat) (chunk : List α) :
    (process_files_chunk (convert_file_to_markdown attempt) chunk).2 = chunk.length
    ∧ (process_files_chunk (convert_file_to_markdown attempt) chunk).1
        = chunk.countP (fun f => isOkB (attempt f))
    ∧ (process_directory_tasks (convert_file_to_markdown attempt) tasks N).2 = tasks.length
    ∧ (process_directory_tasks (convert_file_to_markdown attempt) tasks N).1
        = tasks.countP (fun f => isOkB (attempt f)) := by
  have hfun : convert_file_to_markdown attempt = fun f : α => isOkB (attempt f) := by
    funext f
    cases h : attempt f <;> simp [convert_file_to_markdown, isOkB, h]
  refine ⟨rfl, ?_, ?_, ?_⟩
  · show countLoop (convert_file_to_markdown attempt) chunk = _
    rw [countLoop_eq_countP, hfun]
  · rw [process_directory_tasks_eq]
  · rw [process_directory_tasks_eq, hfun]

/-- C8: a single-file request on a missing path fails with the distinct
file-not-found reason, performs no conversion and writes no output file
(only the unconditional output-directory creation happens), and `main`
exits 1; the three validation failure reasons are pairwise distinct and
each reachable. -/
theorem claim_C8_single_file (out : String) (isFile convOk : Bool) (f : InputFile) :
    process_single_file false isFile f convOk = .fileNotFound
    ∧ (process_single_file false isFile f convOk).toBool = false
    ∧ (batch_main_file_trace out false isFile f convOk).1 = [FsEffect.mkdirOut out]
    ∧ (batch_main_file_trace out false isFile f convOk).2 = 1
    ∧ process_single_file true false f convOk = .pathNotAFile
    ∧ process_single_file true true ⟨"data", ".xyz", "x"⟩ convOk = .unsupportedType
    ∧ (FileReport.fileNotFound ≠ FileReport.pathNotAFile
        ∧ FileReport.fileNotFound ≠ FileReport.unsupportedType
        ∧ FileReport.pathNotAFile ≠ FileReport.unsupportedType) :=
  ⟨rfl, rfl, rfl, rfl, rfl, rfl, by decide⟩

/-- C9: the single-format tools validate only existence; for every existing
input — whatever its extension, for example a `.pdf` handed to the Excel
tool — the conversion library is invoked directly, and the run fails
exactly when the library call itself fails. -/
theorem claim_C9_no_extension_check (lib : InputFile → Except String String)
    (f : InputFile) (stem content : String) :
    (excel_tool_main true lib f).libCalled = true
    ∧ (word_tool_main true lib f).libCalled = true
    ∧ (excel_tool_main true lib f).exitCode = (if isOkB (lib f) then 0 else 1)
    ∧ (word_tool_main true lib f).exitCode = (if isOkB (lib f) then 0 else 1)
    ∧ (excel_tool_main true lib ⟨stem, ".pdf", content⟩).libCalled = true := by
  cases h : lib f <;> cases h2 : lib ⟨stem, ".pdf", content⟩ <;>
    simp [excel_tool_main, convert_excel_to_markdown, word_tool_main,
      convert_word_to_markdown, isOkB, h, h2]

/-- C10: in both modes the first effect of `main` is creating the output
directory — before any input validation, so even a failing invocation
leaves it in place — and every other effect is the write of one converted
markdown file named stem plus `.md`; a single-file run on a missing path
still creates the directory, writes nothing and exits 1. -/
theorem claim_C10_output_dir (out : String) (dirExists isDir : Bool)
    (ok : InputFile → Bool) (tasks : List InputFile) (N : Nat)
    (fileExists isFile : Bool) (f : InputFile) (convOk : Bool) :
    (batch_main_dir_trace out dirExists isDir ok tasks N).1.head?
        = some (FsEffect.mkdirOut out)
    ∧ (∀ e ∈ (batch_main_dir_trace out dirExists isDir ok tasks N).1.tail,
        ∃ s, e = FsEffect.writeFile (s ++ ".md"))
    ∧ (batch_main_file_trace out fileExists isFile f convOk).1.head?
        = some (FsEffect.mkdirOut out)
    ∧ (∀ e ∈ (batch_main_file_trace out fileExists isFile f convOk).1.tail,
        ∃ s, e = FsEffect.writeFile (s ++ ".md"))
    ∧ batch_main_file_trace "converted-markdown" false true ⟨"doc", ".pdf", "d"⟩ true
        = ([FsEffect.mkdirOut "converted-markdown"], 1) := by
  refine ⟨rfl, ?_, rfl, ?_, rfl⟩
  · intro e he
    simp only [batch_main_dir_trace, List.tail_cons] at he
    by_cases h : dirExists && isDir && !tasks.isEmpty
    · rw [if_pos h] at he
      simp only [conversionWrites, List.mem_map] at he
      obtain ⟨a, _, rfl⟩ := he
      exact ⟨a.stem, rfl⟩
    · rw [if_neg h] at he
      simp at he
  · intro e he
    simp only [batch_main_file_trace, List.tail_cons] at he
    rcases hrep : process_single_file fileExists isFile f convOk with _ | _ | _ | b
    · rw [hrep] at he; simp at he
    · rw [hrep] at he; simp at he
    · rw [hrep] at he; simp at he
    · rw [hrep] at he
      cases b
      · simp at he
      · simp only [List.mem_singleton] at he
        exact ⟨f.stem, he⟩

/-- C10 witness: a successful directory run over one `.py` task has the
output-directory creation first and exactly one markdown write in its
tail. -/
theorem claim_C10_output_dir_witness :
    FsEffect.writeFile ("a" ++ ".md")
        ∈ (batch_main_dir_trace "o" true true (fun _ => true) [⟨"a", ".py", "x"⟩] 1).1.tail
    ∧ (∃ s, FsEffect.writeFile ("a" ++ ".md") = FsEffect.writeFile (s ++ ".md")) :=
  ⟨by decide,
    (claim_C10_output_dir "o" true true (fun _ => true) [⟨"a", ".py", "x"⟩] 1
        false true ⟨"doc", ".pdf", "d"⟩ true).2.1
      (FsEffect.writeFile ("a" ++ ".md")) (by decide)⟩

end ConvertAll
